import Mathlib

/-!
Verification development for the SimpleFS storage engine
(src/library/fs.c, the disk emulator disk.c, and the fs.h header).

The C sources are embedded shallowly:

* machine integers (uint32_t, size_t, ssize_t) are modelled as Nat or Int;
  none of the operations exercised here can overflow a uint32;
* the Disk structure of disk.h (the header itself is not in the sources, but
  every field is fixed by its uses in disk.c) carries the file descriptor,
  the block count, the read and write counters and the mounted flag;
* the backing file is a function from block numbers to Block values, passed
  and returned explicitly; a disk_write produces an updated function;
* the C union Block is modelled as a structure holding the three decoded
  views used by the code (superblock, inode array, pointer array); every
  call site of the C code reads a given block through exactly one view;
* the FileSystem structure holds the two bitmaps (bool lists, one entry per
  block or inode slot, as in the C byte-per-flag arrays) and the superblock
  copy; the disk pointer inside the C FileSystem is modelled by passing the
  Disk next to the FileSystem;
* fallible steps return Option; a None result corresponds to the C code
  returning DISK_FAILURE or FS_FAILURE on that path.
-/

namespace SimpleFS

/-- BLOCK_SIZE. Modelled from the spec: disk.h is not among the sources;
the spec fixes BLOCK_SIZE = 4096 bytes. -/
def BLOCK_SIZE : Nat := 4096

/-- MAGIC_NUMBER from fs.h. -/
def MAGIC_NUMBER : Nat := 0xf0f03410

/-- INODES_PER_BLOCK from fs.h. -/
def INODES_PER_BLOCK : Nat := 128

/-- POINTERS_PER_INODE from fs.h. -/
def POINTERS_PER_INODE : Nat := 5

/-- POINTERS_PER_BLOCK from fs.h. -/
def POINTERS_PER_BLOCK : Nat := 1024

/-- INODE_AVAILABLE from fs.h. -/
def INODE_AVAILABLE : Bool := true

/-- INODE_UNAVAILABLE from fs.h. -/
def INODE_UNAVAILABLE : Bool := false

/-- FS_FAILURE from fs.h is the C boolean false. -/
def FS_FAILURE_bool : Bool := false

/-- FS_SUCCESS from fs.h is the C boolean true. -/
def FS_SUCCESS_bool : Bool := true

/-- The value of FS_FAILURE after the usual C conversion to an integer
return type (ssize_t): false converts to 0. -/
def FS_FAILURE : Int := if FS_FAILURE_bool then 1 else 0

/-- The Disk structure of disk.h. Modelled from the spec and from its uses
in disk.c: file descriptor (-1 when closed), block count, read and write
counters, mounted flag. -/
structure Disk where
  fd : Int
  blocks : Nat
  reads : Nat
  writes : Nat
  mounted : Bool
deriving DecidableEq

/-- The SuperBlock record of fs.h: four uint32 fields. -/
structure SuperBlock where
  magic_number : Nat
  blocks : Nat
  inode_blocks : Nat
  inodes : Nat
deriving DecidableEq

/-- The Inode record of fs.h: valid flag, size, five direct pointers and
one indirect pointer, all uint32. The direct array is a function from the
index to the stored pointer. -/
structure Inode where
  valid : Nat
  size : Nat
  direct : Nat → Nat
  indirect : Nat

/-- The Block union of fs.h, modelled as the three decoded views the code
uses. Each call site of the C code reads a given disk block through exactly
one of the views, so the views of a block never need to be related. -/
structure Block where
  super : SuperBlock
  inodes : Nat → Inode
  pointers : Nat → Nat

/-- The FileSystem structure of fs.h without the disk pointer; the Disk is
passed next to the FileSystem wherever the C code dereferences fs->disk. -/
structure FileSystem where
  free_blocks : List Bool
  free_inodes : List Bool
  meta_data : SuperBlock

/-! ## disk.c -/

/-- disk_sanity_check from disk.c, checks in source order: null disk, closed
file descriptor, the block bound written as disk->blocks < block, null data
buffer, and finally the reads/writes counters. -/
def disk_sanity_check (disk : Option Disk) (block : Nat) (dataNonNull : Bool) : Bool :=
  match disk with
  | none => false
  | some d =>
    if d.fd = -1 then false
    else if d.blocks < block then false
    else if dataNonNull = false then false
    else if 1 ≤ d.reads ∨ 1 ≤ d.writes then false
    else true

/-- disk_open from disk.c. malloc is assumed to succeed; r0 and w0 are the
values found in the uninitialized reads and writes fields, which the code
increments; openFd is the descriptor returned by open (-1 on failure) and
truncOk tells whether ftruncate succeeds. On success the function returns
the Disk together with the size in bytes the backing file was truncated to. -/
def disk_open (blocks : Nat) (r0 w0 : Nat) (openFd : Int) (truncOk : Bool) :
    Option (Disk × Nat) :=
  let d : Disk :=
    { fd := openFd, blocks := BLOCK_SIZE, reads := r0 + 1, writes := w0 + 1,
      mounted := true }
  if openFd = -1 then none
  else if truncOk = false then none
  else some (d, blocks * BLOCK_SIZE)

/-- disk_read from disk.c: the sanity gate followed by the lseek/read pair.
The syscalls are assumed to transfer a full block whenever the gate passes;
every use below reads a block strictly inside the backing file, where this
assumption is accurate. A none result is the C DISK_FAILURE return. -/
def disk_read (d : Disk) (content : Nat → Block) (block : Nat) : Option Block :=
  if disk_sanity_check (some d) block true then some (content block) else none

/-- disk_write from disk.c: the sanity gate followed by the lseek/write
pair; ioOk tells whether the physical write transfers a full block. On
success the updated backing file is returned. -/
def disk_write (d : Disk) (content : Nat → Block) (block : Nat) (blk : Block)
    (ioOk : Bool) : Option (Nat → Block) :=
  if disk_sanity_check (some d) block true ∧ ioOk = true then
    some (fun b => if b = block then blk else content b)
  else none

/-! ## Claims C4 and C5 (disk layer) -/

/-- C4: the claim states that the sanity gate passes iff the disk is
non-null with an open descriptor, block < blocks and the buffer is
non-null, that the counters never refuse an operation, and that any call
with block >= blocks fails. The code refutes it twice: a disk with
reads = 1 (open descriptor, block 5 < 10 blocks, non-null buffer) is
refused by the counter check, and a call with block = blocks = 10 passes
the gate because the code tests disk->blocks < block instead of
block < disk->blocks. -/
theorem disk_sanity_check_counters_and_bound :
    disk_sanity_check
        (some { fd := 3, blocks := 10, reads := 1, writes := 0, mounted := false })
        5 true = false ∧
      disk_sanity_check
        (some { fd := 3, blocks := 10, reads := 0, writes := 0, mounted := false })
        10 true = true := by
  decide

/-- C5: the claim states that a successful disk_open records the requested
block count, sets mounted to false and zeroes the counters. The code sets
disk->blocks to BLOCK_SIZE regardless of the request, sets mounted to true,
and increments whatever the uninitialized counters held (here 0). Only the
truncation length blocks * BLOCK_SIZE follows the claim. Shown at the
concrete call disk_open(path, 10) with fd 3 and zeroed malloc memory. -/
theorem disk_open_wrong_fields :
    disk_open 10 0 0 3 true =
      some ({ fd := 3, blocks := 4096, reads := 1, writes := 1, mounted := true },
            40960) := by
  decide

/-! ## fs.c : counting inodes -/

/-- fs_count_inodes_from_block from fs.c: the number of inode slots in the
block whose valid field equals 1 (the C comparison valid == true compares
the uint32 against 1). -/
def fs_count_inodes_from_block (blk : Block) : Nat :=
  (List.range INODES_PER_BLOCK).countP (fun i => (blk.inodes i).valid == 1)

/-- The loop body of fs_count_inodes over the remaining inode block
numbers: read each block, accumulate the per-block counts, abort on a
failed read. -/
def fs_count_inodes_go (d : Disk) (content : Nat → Block) : List Nat → Option Nat
  | [] => some 0
  | b :: rest =>
    match disk_read d content b with
    | none => none
    | some blk =>
      match fs_count_inodes_go d content rest with
      | none => none
      | some n => some (fs_count_inodes_from_block blk + n)

/-- fs_count_inodes from fs.c: iterate over inode blocks 1 .. inode_blocks.
On a failed read the C code returns FS_FAILURE, whose ssize_t value is 0,
indistinguishable from a successful count of zero. -/
def fs_count_inodes (fs : FileSystem) (d : Disk) (content : Nat → Block) : Int :=
  match fs_count_inodes_go d content (List.range' 1 fs.meta_data.inode_blocks) with
  | none => FS_FAILURE
  | some n => (n : Int)

/-! ## fs.c : free block map -/

/-- The second init loop of fs_build_free_block_map: mark blocks 1 + i for
i below inode_blocks as reserved. -/
def reserve_inode_area (fb : List Bool) : List Nat → List Bool
  | [] => fb
  | i :: rest => reserve_inode_area (fb.set (1 + i) false) rest

/-- The initialization phase of fs_build_free_block_map: every entry true,
then entry 0 (the superblock) false, then the inode area false. -/
def free_block_init (meta : SuperBlock) : List Bool :=
  reserve_inode_area ((List.replicate meta.blocks true).set 0 false)
    (List.range meta.inode_blocks)

/-- The direct pointer loop of fs_build_free_block_map: for each index in
the list, mark the pointed-to block in use when the pointer is nonzero. -/
def mark_direct_ptrs (ino : Inode) (fb : List Bool) : List Nat → List Bool
  | [] => fb
  | j :: rest =>
    mark_direct_ptrs ino (if ino.direct j ≠ 0 then fb.set (ino.direct j) false else fb)
      rest

/-- The indirect pointer loop of fs_build_free_block_map: for each slot of
the pointer block, mark the pointed-to block in use when nonzero. -/
def mark_indirect_ptrs (pblk : Block) (fb : List Bool) : List Nat → List Bool
  | [] => fb
  | t :: rest =>
    mark_indirect_ptrs pblk
      (if pblk.pointers t ≠ 0 then fb.set (pblk.pointers t) false else fb) rest

/-- The per-inode body of fs_build_free_block_map: for a valid inode mark
its direct pointers, then, when the indirect pointer is positive, mark it,
read the indirect block and mark its nonzero entries. A failed read of the
indirect block makes the whole construction fail; the C code then leaves a
partially built map behind, a state fs_mount reports as failure and no
caller observes, so the model collapses it to none. -/
def mark_inode (d : Disk) (content : Nat → Block) (ino : Inode) (fb : List Bool) :
    Option (List Bool) :=
  if ino.valid ≠ 0 then
    let fb1 := mark_direct_ptrs ino fb (List.range POINTERS_PER_INODE)
    if 0 < ino.indirect then
      match disk_read d content ino.indirect with
      | none => none
      | some ib =>
        some (mark_indirect_ptrs ib (fb1.set ino.indirect false)
          (List.range POINTERS_PER_BLOCK))
    else some fb1
  else some fb

/-- The inner loop of fs_build_free_block_map over the inode slots of one
inode block. -/
def mark_block_inodes (d : Disk) (content : Nat → Block) (blk : Block)
    (fb : List Bool) : List Nat → Option (List Bool)
  | [] => some fb
  | i :: rest =>
    match mark_inode d content (blk.inodes i) fb with
    | none => none
    | some fb1 => mark_block_inodes d content blk fb1 rest

/-- The outer loop of fs_build_free_block_map over the inode block numbers. -/
def mark_inode_blocks (d : Disk) (content : Nat → Block) (fb : List Bool) :
    List Nat → Option (List Bool)
  | [] => some fb
  | b :: rest =>
    match disk_read d content b with
    | none => none
    | some blk =>
      match mark_block_inodes d content blk fb (List.range INODES_PER_BLOCK) with
      | none => none
      | some fb1 => mark_inode_blocks d content fb1 rest

/-- fs_build_free_block_map from fs.c: initialize the map, then scan inode
blocks 1 .. inode_blocks marking every block referenced from a valid inode.
malloc is assumed to succeed. -/
def fs_build_free_block_map (fs : FileSystem) (d : Disk) (content : Nat → Block) :
    Option FileSystem :=
  match mark_inode_blocks d content (free_block_init fs.meta_data)
      (List.range' 1 fs.meta_data.inode_blocks) with
  | none => none
  | some fb => some { fs with free_blocks := fb }

/-! ## fs.c : free inode map -/

/-- The inner loop of fs_build_free_inode_map over the inode slots of block
number b: slot INODES_PER_BLOCK * (b - 1) + i becomes INODE_UNAVAILABLE when
the inode has valid == 1 and INODE_AVAILABLE otherwise. -/
def set_block_inode_flags (blk : Block) (b : Nat) (fi : List Bool) :
    List Nat → List Bool
  | [] => fi
  | i :: rest =>
    set_block_inode_flags blk b
      (fi.set (INODES_PER_BLOCK * (b - 1) + i)
        (if (blk.inodes i).valid = 1 then INODE_UNAVAILABLE else INODE_AVAILABLE))
      rest

/-- The outer loop of fs_build_free_inode_map over the inode block numbers. -/
def build_inode_map_go (d : Disk) (content : Nat → Block) (fi : List Bool) :
    List Nat → Option (List Bool)
  | [] => some fi
  | b :: rest =>
    match disk_read d content b with
    | none => none
    | some blk =>
      build_inode_map_go d content
        (set_block_inode_flags blk b fi (List.range INODES_PER_BLOCK)) rest

/-- fs_build_free_inode_map from fs.c. The malloc returns uninitialized
bytes; the pass assigns every slot exactly once, so the initial values are
never observed and the model starts from false. -/
def fs_build_free_inode_map (fs : FileSystem) (d : Disk) (content : Nat → Block) :
    Option FileSystem :=
  match build_inode_map_go d content
      (List.replicate (fs.meta_data.inode_blocks * INODES_PER_BLOCK) false)
      (List.range' 1 fs.meta_data.inode_blocks) with
  | none => none
  | some fi => some { fs with free_inodes := fi }

/-! ## fs.c : mount -/

/-- fs_mount computes ceil((double) blocks / (double) 10). For every uint32
argument the double division is exact enough that its ceiling equals the
integer ceiling, modelled as (n + 9) / 10. -/
def ceil_div10 (n : Nat) : Nat := (n + 9) / 10

/-- fs_mount from fs.c. The steps in source order: refuse an already
mounted disk; record disk->blocks into the meta data; read block 0 (a
failure returns false); copy the on-disk superblock over the meta data; a
magic number mismatch is only logged, control continues; overwrite
inode_blocks with ceil(blocks / 10); set inodes from fs_count_inodes,
comparing the result against FS_FAILURE = 0 (so a disk with no valid inode
makes the mount fail); build both maps; set disk->mounted. The result is
the returned bool together with the filesystem and disk as left behind. -/
def fs_mount (fs : FileSystem) (d : Disk) (content : Nat → Block) :
    Bool × FileSystem × Disk :=
  if d.mounted then (FS_FAILURE_bool, fs, d)
  else
    let fs1 : FileSystem :=
      { fs with meta_data := { fs.meta_data with blocks := d.blocks } }
    match disk_read d content 0 with
    | none => (false, fs1, d)
    | some block0 =>
      let fs2 : FileSystem := { fs1 with meta_data := block0.super }
      let fs3 : FileSystem :=
        { fs2 with meta_data :=
          { fs2.meta_data with inode_blocks := ceil_div10 fs2.meta_data.blocks } }
      let cnt := fs_count_inodes fs3 d content
      if cnt = FS_FAILURE then (FS_FAILURE_bool, fs3, d)
      else
        let fs4 : FileSystem :=
          { fs3 with meta_data := { fs3.meta_data with inodes := cnt.toNat } }
        match fs_build_free_block_map fs4 d content with
        | none => (false, fs4, d)
        | some fs5 =>
          match fs_build_free_inode_map fs5 d content with
          | none => (false, fs5, d)
          | some fs6 => (true, fs6, { d with mounted := true })

/-! ## fs.c : create -/

/-- fs_get_total_inodes from fs.c. -/
def fs_get_total_inodes (fs : FileSystem) : Nat :=
  INODES_PER_BLOCK * fs.meta_data.inode_blocks

/-- The scan loop of fs_find_first_available_inode. -/
def find_first_avail_go (free : List Bool) : List Nat → Option Nat
  | [] => none
  | i :: rest =>
    if free.getD i false = INODE_AVAILABLE then some i
    else find_first_avail_go free rest

/-- fs_find_first_available_inode from fs.c: the first index below
INODES_PER_BLOCK * inode_blocks whose bitmap entry is INODE_AVAILABLE,
returned as an ssize_t, or FS_FAILURE when none is. FS_FAILURE is the C
false = 0, the same ssize_t value as the legal slot number 0. -/
def fs_find_first_available_inode (fs : FileSystem) : Int :=
  match find_first_avail_go fs.free_inodes
      (List.range (INODES_PER_BLOCK * fs.meta_data.inode_blocks)) with
  | none => FS_FAILURE
  | some i => (i : Int)

/-- fs_mark_inode_status from fs.c: out-of-range inode numbers leave the
bitmap untouched (and the C code returns FS_FAILURE, a value fs_create
ignores). -/
def fs_mark_inode_status (fs : FileSystem) (inode_num : Nat) (available : Bool) :
    FileSystem :=
  if fs_get_total_inodes fs ≤ inode_num then fs
  else { fs with free_inodes := fs.free_inodes.set inode_num available }

/-- The call memset(inode_ptr->direct, 0, POINTERS_PER_INODE) in fs_create
clears POINTERS_PER_INODE = 5 bytes, not 5 uint32 entries: all four bytes
of direct[0] and the low byte of direct[1] (little-endian); the remaining
entries are untouched. -/
def memset_direct5 (direct : Nat → Nat) : Nat → Nat :=
  fun j =>
    if j = 0 then 0
    else if j = 1 then direct 1 / 256 * 256
    else direct j

/-- The in-memory update fs_create applies to the hosting inode block: slot
cur_idx gets valid = 1, size = 0, the 5-byte memset over direct;
indirect is never assigned and keeps its on-disk value. -/
def fs_create_newblock (block : Block) (cur_idx : Nat) : Block :=
  { block with
    inodes := fun i =>
      if i = cur_idx then
        { block.inodes cur_idx with
          valid := 1
          size := 0
          direct := memset_direct5 (block.inodes cur_idx).direct }
      else block.inodes i }

/-- The tail of fs_create, after the inode number has been fixed: read the
hosting block, apply fs_create_newblock, write the block back (a failure
returns with the filesystem untouched), increment meta_data.inodes, mark
the bitmap entry unavailable. -/
def fs_create_go (fs : FileSystem) (d : Disk) (content : Nat → Block)
    (writeOk : Bool) (inode_num : Nat) : Option Nat × FileSystem × (Nat → Block) :=
  match disk_read d content (inode_num / INODES_PER_BLOCK + 1) with
  | none => (none, fs, content)
  | some block =>
    match disk_write d content (inode_num / INODES_PER_BLOCK + 1)
        (fs_create_newblock block (inode_num % INODES_PER_BLOCK)) writeOk with
    | none => (none, fs, content)
    | some content1 =>
      (some inode_num,
        fs_mark_inode_status
          { fs with meta_data :=
            { fs.meta_data with inodes := fs.meta_data.inodes + 1 } }
          inode_num INODE_UNAVAILABLE,
        content1)

/-- fs_create from fs.c. writeOk tells whether the physical disk write
succeeds. Source order: refuse when meta_data.inodes has reached
INODES_PER_BLOCK * inode_blocks; call fs_find_first_available_inode and
compare its ssize_t result res against FS_FAILURE, which is 0, so the
comparison also fires when the lowest available slot is number 0 and such
a call fails without touching anything; otherwise convert res to size_t
and run fs_create_go on it. The C code stores res in a local; the pure
find function is repeated here and denotes the same value. -/
def fs_create (fs : FileSystem) (d : Disk) (content : Nat → Block)
    (writeOk : Bool) : Option Nat × FileSystem × (Nat → Block) :=
  if INODES_PER_BLOCK * fs.meta_data.inode_blocks ≤ fs.meta_data.inodes then
    (none, fs, content)
  else if fs_find_first_available_inode fs = FS_FAILURE then
    (none, fs, content)
  else
    fs_create_go fs d content writeOk (fs_find_first_available_inode fs).toNat

/-- The blocks marked in use on behalf of one inode by the mount scan: for
an inode with nonzero valid flag, its nonzero direct pointers, its positive
indirect pointer, and the nonzero entries of the indirect block. -/
def blockMarkedByInode (content : Nat → Block) (ino : Inode) (b : Nat) : Bool :=
  (ino.valid != 0) &&
    ((List.range POINTERS_PER_INODE).any (fun j => ino.direct j != 0 && ino.direct j == b) ||
      ((ino.indirect != 0) &&
        ((ino.indirect == b) ||
          (List.range POINTERS_PER_BLOCK).any (fun t =>
            (content ino.indirect).pointers t != 0 &&
              (content ino.indirect).pointers t == b))))

/-- Some inode of the inode table (blocks 1 .. nib) marks b in use. -/
def blockReachable (content : Nat → Block) (nib b : Nat) : Bool :=
  (List.range' 1 nib).any (fun bn =>
    (List.range INODES_PER_BLOCK).any (fun i =>
      blockMarkedByInode content ((content bn).inodes i) b))

/-- The claim-level reachability notion: an inode with valid = 1 reaches
block b through a direct pointer, through its indirect pointer, or through
a nonzero entry of its indirect block. -/
def InodeReaches (content : Nat → Block) (ino : Inode) (b : Nat) : Prop :=
  ino.valid = 1 ∧
    ((∃ j < POINTERS_PER_INODE, ino.direct j ≠ 0 ∧ ino.direct j = b) ∨
      (ino.indirect ≠ 0 ∧ ino.indirect = b) ∨
      (ino.indirect ≠ 0 ∧ ∃ t < POINTERS_PER_BLOCK,
        (content ino.indirect).pointers t ≠ 0 ∧ (content ino.indirect).pointers t = b))

/-- Some inode of the inode table reaches block b (claim-level form). -/
def SomeInodeReaches (content : Nat → Block) (nib b : Nat) : Prop :=
  ∃ ib < nib, ∃ i < INODES_PER_BLOCK,
    InodeReaches content ((content (1 + ib)).inodes i) b

/-- Well-formedness of the inode table: every valid flag is 0 or 1. -/
def valid01 (content : Nat → Block) (nib : Nat) : Bool :=
  (List.range' 1 nib).all (fun bn =>
    (List.range INODES_PER_BLOCK).all (fun i =>
      ((content bn).inodes i).valid == 0 || ((content bn).inodes i).valid == 1))

/-- Well-formedness of the pointers: for every inode with nonzero valid
flag, the direct pointers, the indirect pointer and the entries of the
indirect block are all below the block count. -/
def ptrsInRange (content : Nat → Block) (nib bcount : Nat) : Bool :=
  (List.range' 1 nib).all (fun bn =>
    (List.range INODES_PER_BLOCK).all (fun i =>
      ((content bn).inodes i).valid == 0 ||
        ((List.range POINTERS_PER_INODE).all (fun j =>
            decide (((content bn).inodes i).direct j < bcount)) &&
          (((content bn).inodes i).indirect == 0 ||
            (decide (((content bn).inodes i).indirect < bcount) &&
              (List.range POINTERS_PER_BLOCK).all (fun t =>
                decide ((content ((content bn).inodes i).indirect).pointers t < bcount)))))))

/-- At least one inode slot of the table has valid = 1 (fs_mount fails
without one, because fs_count_inodes returning 0 is read as FS_FAILURE). -/
def hasValidInode (content : Nat → Block) (nib : Nat) : Bool :=
  (List.range' 1 nib).any (fun bn =>
    (List.range INODES_PER_BLOCK).any (fun i => ((content bn).inodes i).valid == 1))

/-- The number of valid inode slots found by scanning blocks 1 .. nib. -/
def countValidSlots (content : Nat → Block) (nib : Nat) : Nat :=
  ((List.range' 1 nib).map (fun bn => fs_count_inodes_from_block (content bn))).sum

/-! ## Basic bitmap lemmas -/

lemma getD_set_false (fb : List Bool) (t b : Nat) :
    (fb.set t false).getD b false = (fb.getD b false && !(t == b)) := by
  simp only [List.getD_eq_getElem?_getD, List.getElem?_set]
  by_cases h : t = b
  · subst h
    by_cases hl : t < fb.length
    · simp [hl]
    · simp [hl, List.getElem?_eq_none (Nat.le_of_not_lt hl)]
  · have hb : (t == b) = false := by simp [h]
    simp [h, hb]

lemma getD_set_of_lt (fi : List Bool) (t : Nat) (v : Bool) (b : Nat)
    (ht : t < fi.length) :
    (fi.set t v).getD b false = if t = b then v else fi.getD b false := by
  simp only [List.getD_eq_getElem?_getD, List.getElem?_set]
  by_cases h : t = b
  · subst h
    simp [ht]
  · simp [h]

lemma getD_replicate_true (n b : Nat) :
    (List.replicate n true).getD b false = decide (b < n) := by
  simp only [List.getD_eq_getElem?_getD, List.getElem?_replicate]
  by_cases h : b < n <;> simp [h]

/-! ## Characterizing the free block map construction -/

lemma disk_sanity_check_pass (d : Disk) (b : Nat) (hfd : d.fd ≠ -1)
    (hb : b ≤ d.blocks) (hr : d.reads = 0) (hw : d.writes = 0) :
    disk_sanity_check (some d) b true = true := by
  simp [disk_sanity_check, hfd, Nat.not_lt.mpr hb, hr, hw]

lemma disk_read_pass (d : Disk) (content : Nat → Block) (b : Nat) (hfd : d.fd ≠ -1)
    (hb : b ≤ d.blocks) (hr : d.reads = 0) (hw : d.writes = 0) :
    disk_read d content b = some (content b) := by
  simp [disk_read, disk_sanity_check_pass d b hfd hb hr hw]

lemma mark_direct_ptrs_getD (ino : Inode) (js : List Nat) (fb : List Bool) (b : Nat) :
    (mark_direct_ptrs ino fb js).getD b false =
      (fb.getD b false && !(js.any (fun j => ino.direct j != 0 && ino.direct j == b))) := by
  induction js generalizing fb with
  | nil => simp [mark_direct_ptrs]
  | cons j rest ih =>
    simp only [mark_direct_ptrs, List.any_cons]
    rw [ih]
    by_cases h : ino.direct j = 0
    · simp [h]
    · have h2 : (ino.direct j != 0) = true := by simp [h]
      rw [if_pos h, getD_set_false, h2]
      cases fb.getD b false <;>
        cases hh : (ino.direct j == b) <;>
          simp [hh]

lemma mark_indirect_ptrs_getD (pblk : Block) (ts : List Nat) (fb : List Bool) (b : Nat) :
    (mark_indirect_ptrs pblk fb ts).getD b false =
      (fb.getD b false && !(ts.any (fun t => pblk.pointers t != 0 && pblk.pointers t == b))) := by
  induction ts generalizing fb with
  | nil => simp [mark_indirect_ptrs]
  | cons t rest ih =>
    simp only [mark_indirect_ptrs, List.any_cons]
    rw [ih]
    by_cases h : pblk.pointers t = 0
    · simp [h]
    · have h2 : (pblk.pointers t != 0) = true := by simp [h]
      rw [if_pos h, getD_set_false, h2]
      cases fb.getD b false <;>
        cases hh : (pblk.pointers t == b) <;>
          simp [hh]

lemma mark_direct_length (ino : Inode) (fb : List Bool) (js : List Nat) :
    (mark_direct_ptrs ino fb js).length = fb.length := by
  induction js generalizing fb with
  | nil => rfl
  | cons j rest ih =>
    simp only [mark_direct_ptrs]
    rw [ih]
    by_cases h : ino.direct j ≠ 0 <;> simp [h]

lemma mark_indirect_length (pblk : Block) (fb : List Bool) (ts : List Nat) :
    (mark_indirect_ptrs pblk fb ts).length = fb.length := by
  induction ts generalizing fb with
  | nil => rfl
  | cons t rest ih =>
    simp only [mark_indirect_ptrs]
    rw [ih]
    by_cases h : pblk.pointers t ≠ 0 <;> simp [h]

lemma mark_inode_getD (d : Disk) (content : Nat → Block) (ino : Inode) (fb : List Bool)
    (hfd : d.fd ≠ -1) (hr : d.reads = 0) (hw : d.writes = 0)
    (hind : ino.valid ≠ 0 → ino.indirect ≠ 0 → ino.indirect ≤ d.blocks) :
    ∃ fb1, mark_inode d content ino fb = some fb1 ∧
      fb1.length = fb.length ∧
      ∀ b, fb1.getD b false = (fb.getD b false && !(blockMarkedByInode content ino b)) := by
  unfold mark_inode
  by_cases hv : ino.valid = 0
  · refine ⟨fb, by simp [hv], rfl, fun b => ?_⟩
    have : blockMarkedByInode content ino b = false := by
      simp [blockMarkedByInode, hv]
    simp [this]
  · rw [if_pos hv]
    by_cases hi : 0 < ino.indirect
    · have hi0 : ino.indirect ≠ 0 := Nat.pos_iff_ne_zero.mp hi
      rw [disk_read_pass d content ino.indirect hfd (hind hv hi0) hr hw, if_pos hi]
      refine ⟨_, rfl, ?_, fun b => ?_⟩
      · simp [mark_indirect_length, List.length_set, mark_direct_length]
      · rw [mark_indirect_ptrs_getD, getD_set_false, mark_direct_ptrs_getD]
        have hvb : (ino.valid != 0) = true := by simp [hv]
        have hib : (ino.indirect != 0) = true := by simp [hi0]
        simp only [blockMarkedByInode, hvb, hib, Bool.true_and]
        cases fb.getD b false <;>
          cases h1 : (List.range POINTERS_PER_INODE).any
              (fun j => ino.direct j != 0 && ino.direct j == b) <;>
            cases h2 : (ino.indirect == b) <;>
              cases h3 : (List.range POINTERS_PER_BLOCK).any
                  (fun t => (content ino.indirect).pointers t != 0 &&
                    (content ino.indirect).pointers t == b) <;>
                simp [h1, h2, h3]
    · rw [if_neg hi]
      refine ⟨_, rfl, mark_direct_length ino fb _, fun b => ?_⟩
      rw [mark_direct_ptrs_getD]
      have hvb : (ino.valid != 0) = true := by simp [hv]
      have hib : (ino.indirect != 0) = false := by
        simp [Nat.eq_zero_of_not_pos hi]
      simp [blockMarkedByInode, hvb, hib]

lemma mark_block_inodes_getD (d : Disk) (content : Nat → Block) (blk : Block)
    (fb : List Bool) (is : List Nat)
    (hfd : d.fd ≠ -1) (hr : d.reads = 0) (hw : d.writes = 0)
    (hind : ∀ i ∈ is, (blk.inodes i).valid ≠ 0 → (blk.inodes i).indirect ≠ 0 →
      (blk.inodes i).indirect ≤ d.blocks) :
    ∃ fb1, mark_block_inodes d content blk fb is = some fb1 ∧
      fb1.length = fb.length ∧
      ∀ b, fb1.getD b false =
        (fb.getD b false &&
          !(is.any (fun i => blockMarkedByInode content (blk.inodes i) b))) := by
  induction is generalizing fb with
  | nil => exact ⟨fb, rfl, rfl, by simp⟩
  | cons i rest ih =>
    obtain ⟨fb1, h1, hlen1, hchar1⟩ :=
      mark_inode_getD d content (blk.inodes i) fb hfd hr hw
        (hind i (List.mem_cons_self i rest))
    obtain ⟨fb2, h2, hlen2, hchar2⟩ :=
      ih fb1 (fun j hj => hind j (List.mem_cons_of_mem i hj))
    refine ⟨fb2, ?_, by rw [hlen2, hlen1], fun b => ?_⟩
    · simp only [mark_block_inodes, h1, h2]
    · rw [hchar2, hchar1]
      simp only [List.any_cons]
      cases fb.getD b false <;>
        cases hA : blockMarkedByInode content (blk.inodes i) b <;>
          cases hB : rest.any (fun j => blockMarkedByInode content (blk.inodes j) b) <;>
            simp [hA, hB]

lemma mark_inode_blocks_getD (d : Disk) (content : Nat → Block) (fb : List Bool)
    (bs : List Nat) (hfd : d.fd ≠ -1) (hr : d.reads = 0) (hw : d.writes = 0)
    (hbs : ∀ bn ∈ bs, bn ≤ d.blocks)
    (hind : ∀ bn ∈ bs, ∀ i ∈ List.range INODES_PER_BLOCK,
      ((content bn).inodes i).valid ≠ 0 → ((content bn).inodes i).indirect ≠ 0 →
        ((content bn).inodes i).indirect ≤ d.blocks) :
    ∃ fb1, mark_inode_blocks d content fb bs = some fb1 ∧
      fb1.length = fb.length ∧
      ∀ b, fb1.getD b false =
        (fb.getD b false &&
          !(bs.any (fun bn => (List.range INODES_PER_BLOCK).any
            (fun i => blockMarkedByInode content ((content bn).inodes i) b)))) := by
  induction bs generalizing fb with
  | nil => exact ⟨fb, rfl, rfl, by simp⟩
  | cons bn rest ih =>
    obtain ⟨fb1, h1, hlen1, hchar1⟩ :=
      mark_block_inodes_getD d content (content bn) fb (List.range INODES_PER_BLOCK)
        hfd hr hw (hind bn (List.mem_cons_self bn rest))
    obtain ⟨fb2, h2, hlen2, hchar2⟩ :=
      ih fb1 (fun x hx => hbs x (List.mem_cons_of_mem bn hx))
        (fun x hx => hind x (List.mem_cons_of_mem bn hx))
    refine ⟨fb2, ?_, by rw [hlen2, hlen1], fun b => ?_⟩
    · simp only [mark_inode_blocks,
        disk_read_pass d content bn hfd (hbs bn (List.mem_cons_self bn rest)) hr hw,
        h1, h2]
    · rw [hchar2, hchar1]
      simp only [List.any_cons]
      cases fb.getD b false <;>
        cases hA : (List.range INODES_PER_BLOCK).any
            (fun i => blockMarkedByInode content ((content bn).inodes i) b) <;>
          cases hB : rest.any (fun x => (List.range INODES_PER_BLOCK).any
              (fun i => blockMarkedByInode content ((content x).inodes i) b)) <;>
            simp [hA, hB]

lemma reserve_inode_area_getD (fb : List Bool) (is : List Nat) (b : Nat) :
    (reserve_inode_area fb is).getD b false =
      (fb.getD b false && !(is.any (fun i => (1 + i : Nat) == b))) := by
  induction is generalizing fb with
  | nil => simp [reserve_inode_area]
  | cons i rest ih =>
    simp only [reserve_inode_area, List.any_cons]
    rw [ih, getD_set_false]
    cases fb.getD b false <;>
      cases h1 : ((1 + i : Nat) == b) <;>
        cases h2 : rest.any (fun j => (1 + j : Nat) == b) <;>
          simp [h1, h2]

lemma reserve_inode_area_length (fb : List Bool) (is : List Nat) :
    (reserve_inode_area fb is).length = fb.length := by
  induction is generalizing fb with
  | nil => rfl
  | cons i rest ih =>
    simp only [reserve_inode_area]
    rw [ih, List.length_set]

lemma free_block_init_getD_true (meta : SuperBlock) (b : Nat) :
    (free_block_init meta).getD b false = true ↔
      (1 + meta.inode_blocks ≤ b ∧ b < meta.blocks) := by
  unfold free_block_init
  rw [reserve_inode_area_getD, getD_set_false, getD_replicate_true]
  simp only [Bool.and_eq_true, Bool.not_eq_true', decide_eq_true_eq,
    List.any_eq_false, List.mem_range, beq_eq_false_iff_ne, beq_iff_eq]
  constructor
  · rintro ⟨⟨hb, h0⟩, hany⟩
    refine ⟨?_, hb⟩
    by_contra hlt
    push_neg at hlt
    have h1 : b - 1 < meta.inode_blocks := by omega
    have h2 := hany (b - 1) h1
    omega
  · rintro ⟨h1, h2⟩
    refine ⟨⟨h2, by omega⟩, fun i hi => ?_⟩
    omega

lemma free_block_init_length (meta : SuperBlock) :
    (free_block_init meta).length = meta.blocks := by
  unfold free_block_init
  rw [reserve_inode_area_length, List.length_set, List.length_replicate]

lemma fs_count_inodes_go_pass (d : Disk) (content : Nat → Block) (bs : List Nat)
    (hfd : d.fd ≠ -1) (hr : d.reads = 0) (hw : d.writes = 0)
    (hbs : ∀ bn ∈ bs, bn ≤ d.blocks) :
    fs_count_inodes_go d content bs =
      some ((bs.map (fun bn => fs_count_inodes_from_block (content bn))).sum) := by
  induction bs with
  | nil => rfl
  | cons bn rest ih =>
    simp only [fs_count_inodes_go,
      disk_read_pass d content bn hfd (hbs bn (List.mem_cons_self bn rest)) hr hw,
      ih (fun x hx => hbs x (List.mem_cons_of_mem bn hx)),
      List.map_cons, List.sum_cons]

lemma countValidSlots_pos (content : Nat → Block) (nib : Nat)
    (h : hasValidInode content nib = true) : 1 ≤ countValidSlots content nib := by
  unfold hasValidInode at h
  rw [List.any_eq_true] at h
  obtain ⟨bn, hbn, hany⟩ := h
  have hpos : 0 < fs_count_inodes_from_block (content bn) := by
    rw [List.any_eq_true] at hany
    obtain ⟨i, hi, hv⟩ := hany
    unfold fs_count_inodes_from_block
    rw [List.countP_pos_iff]
    exact ⟨i, hi, hv⟩
  have hmem : fs_count_inodes_from_block (content bn) ∈
      (List.range' 1 nib).map (fun x => fs_count_inodes_from_block (content x)) :=
    List.mem_map_of_mem _ hbn
  exact le_trans hpos (List.single_le_sum (fun x _ => Nat.zero_le x) _ hmem)

/-! ## Characterizing the free inode map construction -/

lemma set_block_inode_flags_length (blk : Block) (bn : Nat) (fi : List Bool)
    (is : List Nat) :
    (set_block_inode_flags blk bn fi is).length = fi.length := by
  induction is generalizing fi with
  | nil => rfl
  | cons i rest ih =>
    simp only [set_block_inode_flags]
    rw [ih, List.length_set]

lemma set_block_inode_flags_getD (blk : Block) (bn : Nat) (fi : List Bool)
    (is : List Nat) (s : Nat)
    (hlen : ∀ i ∈ is, INODES_PER_BLOCK * (bn - 1) + i < fi.length) :
    (set_block_inode_flags blk bn fi is).getD s false =
      if ∃ i ∈ is, INODES_PER_BLOCK * (bn - 1) + i = s then
        (if (blk.inodes (s - INODES_PER_BLOCK * (bn - 1))).valid = 1
          then INODE_UNAVAILABLE else INODE_AVAILABLE)
      else fi.getD s false := by
  induction is generalizing fi with
  | nil => simp [set_block_inode_flags]
  | cons i rest ih =>
    simp only [set_block_inode_flags]
    rw [ih _ (fun j hj => by
      rw [List.length_set]
      exact hlen j (List.mem_cons_of_mem i hj))]
    by_cases hrest : ∃ j ∈ rest, INODES_PER_BLOCK * (bn - 1) + j = s
    · rw [if_pos hrest]
      obtain ⟨j, hjm, hjs⟩ := hrest
      have hcons : ∃ j ∈ i :: rest, INODES_PER_BLOCK * (bn - 1) + j = s :=
        ⟨j, List.mem_cons_of_mem i hjm, hjs⟩
      rw [if_pos hcons]
    · rw [if_neg hrest,
        getD_set_of_lt _ _ _ _ (hlen i (List.mem_cons_self i rest))]
      by_cases hi : INODES_PER_BLOCK * (bn - 1) + i = s
      · have hcons : ∃ j ∈ i :: rest, INODES_PER_BLOCK * (bn - 1) + j = s :=
          ⟨i, List.mem_cons_self i rest, hi⟩
        rw [if_pos hi, if_pos hcons]
        have hsub : s - INODES_PER_BLOCK * (bn - 1) = i := by omega
        rw [hsub]
      · have hcons : ¬∃ j ∈ i :: rest, INODES_PER_BLOCK * (bn - 1) + j = s := by
          rintro ⟨j, hjm, hjs⟩
          rcases List.mem_cons.mp hjm with rfl | hjr
          · exact hi hjs
          · exact hrest ⟨j, hjr, hjs⟩
        rw [if_neg hi, if_neg hcons]

lemma build_inode_map_go_getD (d : Disk) (content : Nat → Block) (fi : List Bool)
    (bs : List Nat) (hfd : d.fd ≠ -1) (hr : d.reads = 0) (hw : d.writes = 0)
    (hbs : ∀ bn ∈ bs, 1 ≤ bn ∧ bn ≤ d.blocks)
    (hlen : ∀ bn ∈ bs, INODES_PER_BLOCK * bn ≤ fi.length) :
    ∃ fi1, build_inode_map_go d content fi bs = some fi1 ∧
      fi1.length = fi.length ∧
      ∀ s, fi1.getD s false =
        if ∃ bn ∈ bs, ∃ i < INODES_PER_BLOCK, INODES_PER_BLOCK * (bn - 1) + i = s then
          (if ((content (s / INODES_PER_BLOCK + 1)).inodes (s % INODES_PER_BLOCK)).valid = 1
            then INODE_UNAVAILABLE else INODE_AVAILABLE)
        else fi.getD s false := by
  induction bs generalizing fi with
  | nil => exact ⟨fi, rfl, rfl, by simp⟩
  | cons bn rest ih =>
    have hbn := hbs bn (List.mem_cons_self bn rest)
    have hlen1 : ∀ i ∈ List.range INODES_PER_BLOCK,
        INODES_PER_BLOCK * (bn - 1) + i < fi.length := by
      intro i hi
      have hi2 := List.mem_range.mp hi
      have := hlen bn (List.mem_cons_self bn rest)
      have hb1 := hbn.1
      calc INODES_PER_BLOCK * (bn - 1) + i < INODES_PER_BLOCK * (bn - 1) + INODES_PER_BLOCK := by omega
        _ = INODES_PER_BLOCK * bn := by
            have : bn - 1 + 1 = bn := by omega
            rw [← this, Nat.mul_add, Nat.mul_one, this]
        _ ≤ fi.length := this
    obtain ⟨fi2, h2, hlen2, hchar2⟩ :=
      ih (set_block_inode_flags (content bn) bn fi (List.range INODES_PER_BLOCK))
        (fun x hx => hbs x (List.mem_cons_of_mem bn hx))
        (fun x hx => by
          rw [set_block_inode_flags_length]
          exact hlen x (List.mem_cons_of_mem bn hx))
    refine ⟨fi2, ?_, by rw [hlen2, set_block_inode_flags_length], fun s => ?_⟩
    · simp only [build_inode_map_go,
        disk_read_pass d content bn hfd hbn.2 hr hw, h2]
    · rw [hchar2 s, set_block_inode_flags_getD _ _ _ _ _ hlen1]
      by_cases hrest : ∃ x ∈ rest, ∃ i < INODES_PER_BLOCK,
          INODES_PER_BLOCK * (x - 1) + i = s
      · rw [if_pos hrest]
        obtain ⟨x, hxm, i, hi, his⟩ := hrest
        have hcons : ∃ x ∈ bn :: rest, ∃ i < INODES_PER_BLOCK,
            INODES_PER_BLOCK * (x - 1) + i = s :=
          ⟨x, List.mem_cons_of_mem bn hxm, i, hi, his⟩
        rw [if_pos hcons]
      · rw [if_neg hrest]
        by_cases hhead : ∃ i ∈ List.range INODES_PER_BLOCK,
            INODES_PER_BLOCK * (bn - 1) + i = s
        · rw [if_pos hhead]
          obtain ⟨i, him, his⟩ := hhead
          have hi := List.mem_range.mp him
          have hcons : ∃ x ∈ bn :: rest, ∃ i < INODES_PER_BLOCK,
              INODES_PER_BLOCK * (x - 1) + i = s :=
            ⟨bn, List.mem_cons_self bn rest, i, hi, his⟩
          rw [if_pos hcons]
          have hdiv : s / INODES_PER_BLOCK + 1 = bn := by
            have hb1 := hbn.1
            unfold INODES_PER_BLOCK at hi his ⊢
            omega
          have hmod : s % INODES_PER_BLOCK = i := by
            have hb1 := hbn.1
            unfold INODES_PER_BLOCK at hi his ⊢
            omega
          have hsub : s - INODES_PER_BLOCK * (bn - 1) = i := by omega
          rw [hdiv, hmod, hsub]
        · have hcons : ¬∃ x ∈ bn :: rest, ∃ i < INODES_PER_BLOCK,
              INODES_PER_BLOCK * (x - 1) + i = s := by
            rintro ⟨x, hxm, i, hi, his⟩
            rcases List.mem_cons.mp hxm with rfl | hxr
            · exact hhead ⟨i, List.mem_range.mpr hi, his⟩
            · exact hrest ⟨x, hxr, i, hi, his⟩
          rw [if_neg hhead, if_neg hcons]

/-! ## Characterizing a successful mount -/

lemma ptrsInRange_indirect_lt (content : Nat → Block) (nib bcount : Nat)
    (h : ptrsInRange content nib bcount = true) :
    ∀ bn ∈ List.range' 1 nib, ∀ i ∈ List.range INODES_PER_BLOCK,
      ((content bn).inodes i).valid ≠ 0 → ((content bn).inodes i).indirect ≠ 0 →
        ((content bn).inodes i).indirect < bcount := by
  intro bn hbn i hi hv hind
  unfold ptrsInRange at h
  rw [List.all_eq_true] at h
  have h2 := h bn hbn
  rw [List.all_eq_true] at h2
  have h3 := h2 i hi
  simp only [Bool.or_eq_true, beq_iff_eq, Bool.and_eq_true, decide_eq_true_eq,
    List.all_eq_true] at h3
  rcases h3 with h3 | ⟨hdir, h4⟩
  · exact absurd h3 hv
  · rcases h4 with h4 | ⟨hlt, hptrs⟩
    · exact absurd h4 hind
    · exact hlt

/-- The mount-time meta data produced by a successful fs_mount: magic and
blocks from the on-disk superblock, inode_blocks recomputed as
ceil(blocks/10), inodes set to the number of valid slots counted. -/
def mountMeta (content : Nat → Block) : SuperBlock :=
  { magic_number := (content 0).super.magic_number
    blocks := (content 0).super.blocks
    inode_blocks := ceil_div10 (content 0).super.blocks
    inodes := countValidSlots content (ceil_div10 (content 0).super.blocks) }

lemma fs_mount_success_chars (fs : FileSystem) (d : Disk) (content : Nat → Block)
    (hm : d.mounted = false) (hfd : d.fd ≠ -1) (hr : d.reads = 0) (hw : d.writes = 0)
    (hdb : (content 0).super.blocks = d.blocks)
    (hfit : 1 + ceil_div10 (content 0).super.blocks ≤ (content 0).super.blocks)
    (hptr : ptrsInRange content (ceil_div10 (content 0).super.blocks)
      (content 0).super.blocks = true)
    (hone : hasValidInode content (ceil_div10 (content 0).super.blocks) = true) :
    (fs_mount fs d content).1 = true ∧
      (fs_mount fs d content).2.2 = { d with mounted := true } ∧
      (fs_mount fs d content).2.1.meta_data = mountMeta content ∧
      (fs_mount fs d content).2.1.free_blocks.length = (content 0).super.blocks ∧
      (∀ b, (fs_mount fs d content).2.1.free_blocks.getD b false = true ↔
        (1 + ceil_div10 (content 0).super.blocks ≤ b ∧ b < (content 0).super.blocks ∧
          blockReachable content (ceil_div10 (content 0).super.blocks) b = false)) ∧
      (∀ s, s < ceil_div10 (content 0).super.blocks * INODES_PER_BLOCK →
        (fs_mount fs d content).2.1.free_inodes.getD s false =
          (if ((content (s / INODES_PER_BLOCK + 1)).inodes (s % INODES_PER_BLOCK)).valid = 1
            then INODE_UNAVAILABLE else INODE_AVAILABLE)) := by
  have hnibd : ceil_div10 (content 0).super.blocks ≤ d.blocks := by
    rw [← hdb]
    omega
  have hbs : ∀ bn ∈ List.range' 1 (ceil_div10 (content 0).super.blocks),
      bn ≤ d.blocks := by
    intro bn hbn
    rw [List.mem_range'] at hbn
    obtain ⟨i, hi, rfl⟩ := hbn
    omega
  have hbs2 : ∀ bn ∈ List.range' 1 (ceil_div10 (content 0).super.blocks),
      1 ≤ bn ∧ bn ≤ d.blocks := by
    intro bn hbn
    refine ⟨?_, hbs bn hbn⟩
    rw [List.mem_range'] at hbn
    obtain ⟨i, hi, rfl⟩ := hbn
    omega
  have hind : ∀ bn ∈ List.range' 1 (ceil_div10 (content 0).super.blocks),
      ∀ i ∈ List.range INODES_PER_BLOCK,
      ((content bn).inodes i).valid ≠ 0 → ((content bn).inodes i).indirect ≠ 0 →
        ((content bn).inodes i).indirect ≤ d.blocks := by
    intro bn hbn i hi hv hi0
    have := ptrsInRange_indirect_lt content _ _ hptr bn hbn i hi hv hi0
    omega
  have hread0 : disk_read d content 0 = some (content 0) :=
    disk_read_pass d content 0 hfd (Nat.zero_le _) hr hw
  have hgo : fs_count_inodes_go d content
      (List.range' 1 (ceil_div10 (content 0).super.blocks)) =
      some (countValidSlots content (ceil_div10 (content 0).super.blocks)) :=
    fs_count_inodes_go_pass d content _ hfd hr hw hbs
  have hcntpos := countValidSlots_pos content _ hone
  obtain ⟨fb1, hfb1, hfb1len, hfb1char⟩ :=
    mark_inode_blocks_getD d content (free_block_init (mountMeta content))
      (List.range' 1 (ceil_div10 (content 0).super.blocks)) hfd hr hw hbs hind
  obtain ⟨fi1, hfi1, hfi1len, hfi1char⟩ :=
    build_inode_map_go_getD d content
      (List.replicate (ceil_div10 (content 0).super.blocks * INODES_PER_BLOCK) false)
      (List.range' 1 (ceil_div10 (content 0).super.blocks)) hfd hr hw hbs2
      (by
        intro bn hbn
        rw [List.length_replicate]
        rw [List.mem_range'] at hbn
        obtain ⟨i, hi, rfl⟩ := hbn
        unfold INODES_PER_BLOCK
        omega)
  have hmount : fs_mount fs d content =
      (true, { free_blocks := fb1, free_inodes := fi1, meta_data := mountMeta content },
        { d with mounted := true }) := by
    unfold fs_mount
    rw [if_neg (by simp [hm]), hread0]
    simp only [fs_count_inodes, mountMeta] at hfb1 ⊢
    rw [hgo]
    have hne : ¬ (((countValidSlots content
        (ceil_div10 (content 0).super.blocks) : Nat) : Int) = FS_FAILURE) := by
      have h0 : FS_FAILURE = 0 := rfl
      rw [h0]
      omega
    simp only [Int.toNat_natCast]
    rw [if_neg hne]
    simp only [fs_build_free_block_map, fs_build_free_inode_map]
    rw [hfb1]
    simp only [hfi1, mountMeta]
  refine ⟨by rw [hmount], by rw [hmount], by rw [hmount], ?_, ?_, ?_⟩
  · rw [hmount]
    show fb1.length = _
    rw [hfb1len, free_block_init_length]
    rfl
  · intro b
    rw [hmount]
    show fb1.getD b false = true ↔ _
    rw [hfb1char b, Bool.and_eq_true, free_block_init_getD_true]
    simp only [mountMeta]
    rw [Bool.not_eq_true']
    show _ ↔ _ ∧ _ ∧ blockReachable content (ceil_div10 (content 0).super.blocks) b = false
    unfold blockReachable
    constructor
    · rintro ⟨⟨h1, h2⟩, h3⟩
      exact ⟨h1, h2, h3⟩
    · rintro ⟨h1, h2, h3⟩
      exact ⟨⟨h1, h2⟩, h3⟩
  · intro s hs
    rw [hmount]
    show fi1.getD s false = _
    rw [hfi1char s]
    have hex : ∃ bn ∈ List.range' 1 (ceil_div10 (content 0).super.blocks),
        ∃ i < INODES_PER_BLOCK, INODES_PER_BLOCK * (bn - 1) + i = s := by
      refine ⟨s / INODES_PER_BLOCK + 1, ?_, s % INODES_PER_BLOCK, ?_, ?_⟩
      · rw [List.mem_range']
        refine ⟨s / INODES_PER_BLOCK, ?_, by omega⟩
        unfold INODES_PER_BLOCK at hs ⊢
        omega
      · unfold INODES_PER_BLOCK at hs ⊢
        omega
      · unfold INODES_PER_BLOCK at hs ⊢
        omega
    rw [if_pos hex]


/-! ## The marking Bool agrees with the claim-level reachability -/

lemma valid01_cases (content : Nat → Block) (nib : Nat)
    (h : valid01 content nib = true) :
    ∀ bn ∈ List.range' 1 nib, ∀ i ∈ List.range INODES_PER_BLOCK,
      ((content bn).inodes i).valid = 0 ∨ ((content bn).inodes i).valid = 1 := by
  intro bn hbn i hi
  unfold valid01 at h
  rw [List.all_eq_true] at h
  have h2 := h bn hbn
  rw [List.all_eq_true] at h2
  have h3 := h2 i hi
  simpa only [Bool.or_eq_true, beq_iff_eq] using h3

lemma blockMarkedByInode_iff (content : Nat → Block) (ino : Inode) (b : Nat)
    (hv : ino.valid = 0 ∨ ino.valid = 1) :
    (blockMarkedByInode content ino b = true) ↔ InodeReaches content ino b := by
  unfold blockMarkedByInode InodeReaches
  simp only [Bool.and_eq_true, Bool.or_eq_true, List.any_eq_true, List.mem_range,
    bne_iff_ne, beq_iff_eq, ne_eq]
  constructor
  · rintro ⟨hval, hrest⟩
    have hv1 : ino.valid = 1 := by
      rcases hv with h | h
      · exact absurd h hval
      · exact h
    refine ⟨hv1, ?_⟩
    rcases hrest with hdir | ⟨hind, hcase⟩
    · left
      obtain ⟨j, hj, hj0, hjb⟩ := hdir
      exact ⟨j, hj, hj0, hjb⟩
    · rcases hcase with hb | hptr
      · exact Or.inr (Or.inl ⟨hind, hb⟩)
      · obtain ⟨t, ht, ht0, htb⟩ := hptr
        exact Or.inr (Or.inr ⟨hind, t, ht, ht0, htb⟩)
  · rintro ⟨hv1, hrest⟩
    refine ⟨by omega, ?_⟩
    rcases hrest with ⟨j, hj, hj0, hjb⟩ | ⟨hind, hb⟩ | ⟨hind, t, ht, ht0, htb⟩
    · exact Or.inl ⟨j, hj, hj0, hjb⟩
    · exact Or.inr ⟨hind, Or.inl hb⟩
    · exact Or.inr ⟨hind, Or.inr ⟨t, ht, ht0, htb⟩⟩

lemma blockReachable_iff (content : Nat → Block) (nib b : Nat)
    (h01 : valid01 content nib = true) :
    (blockReachable content nib b = true) ↔ SomeInodeReaches content nib b := by
  have hv := valid01_cases content nib h01
  unfold blockReachable SomeInodeReaches
  rw [List.any_eq_true]
  constructor
  · rintro ⟨bn, hbn, hany⟩
    rw [List.any_eq_true] at hany
    obtain ⟨i, hi, hmark⟩ := hany
    have hvi := hv bn hbn i hi
    rw [List.mem_range'] at hbn
    obtain ⟨ib, hib, rfl⟩ := hbn
    simp only [Nat.one_mul] at hmark hvi
    exact ⟨ib, hib, i, List.mem_range.mp hi,
      (blockMarkedByInode_iff content _ b hvi).mp hmark⟩
  · rintro ⟨ib, hib, i, hi, hreach⟩
    have hmem : 1 + ib ∈ List.range' 1 nib := by
      rw [List.mem_range']
      exact ⟨ib, hib, by omega⟩
    refine ⟨1 + ib, hmem, ?_⟩
    rw [List.any_eq_true]
    refine ⟨i, List.mem_range.mpr hi, ?_⟩
    exact (blockMarkedByInode_iff content _ b
      (hv (1 + ib) hmem i (List.mem_range.mpr hi))).mpr hreach

/-! ## Lemmas about fs_create -/

lemma fs_mark_inode_status_meta (fs : FileSystem) (n : Nat) (a : Bool) :
    (fs_mark_inode_status fs n a).meta_data = fs.meta_data := by
  unfold fs_mark_inode_status
  split <;> rfl

lemma fs_create_success_inodes (fs : FileSystem) (d : Disk) (c : Nat → Block)
    (w : Bool) (k : Nat) (h : (fs_create fs d c w).1 = some k) :
    (fs_create fs d c w).2.1.meta_data.inodes = fs.meta_data.inodes + 1 := by
  unfold fs_create at h ⊢
  by_cases hguard : INODES_PER_BLOCK * fs.meta_data.inode_blocks ≤ fs.meta_data.inodes
  · rw [if_pos hguard] at h
    simp at h
  · rw [if_neg hguard] at h ⊢
    by_cases hres : fs_find_first_available_inode fs = FS_FAILURE
    · rw [if_pos hres] at h
      simp at h
    · rw [if_neg hres] at h ⊢
      unfold fs_create_go at h ⊢
      cases hrd : disk_read d c
          ((fs_find_first_available_inode fs).toNat / INODES_PER_BLOCK + 1) with
      | none => simp [hrd] at h
      | some blk =>
        cases hwr : disk_write d c
            ((fs_find_first_available_inode fs).toNat / INODES_PER_BLOCK + 1)
            (fs_create_newblock blk
              ((fs_find_first_available_inode fs).toNat % INODES_PER_BLOCK)) w with
        | none => simp [hrd, hwr] at h
        | some c1 => simp [hrd, hwr, fs_mark_inode_status_meta]

/-! ## Concrete fixtures -/

/-- An inode slot holding all zeroes. -/
def invalidInode : Inode :=
  { valid := 0, size := 0, direct := fun _ => 0, indirect := 0 }

/-- An all-zero block. -/
def emptyBlock : Block :=
  { super := ⟨0, 0, 0, 0⟩, inodes := fun _ => invalidInode, pointers := fun _ => 0 }

/-- A FileSystem value before any mount. -/
def fs0 : FileSystem :=
  { free_blocks := [], free_inodes := [], meta_data := ⟨0, 0, 0, 0⟩ }

/-- A ten-block unmounted disk with an open descriptor and zeroed counters. -/
def diskTen : Disk :=
  { fd := 3, blocks := 10, reads := 0, writes := 0, mounted := false }

/-- An inode table with exactly one valid inode, at slot 0, holding no
data blocks. -/
def tableOneValid : Nat → Inode :=
  fun i =>
    if i = 0 then { valid := 1, size := 0, direct := fun _ => 0, indirect := 0 }
    else invalidInode

/-- Disk image for C1: block 0 carries magic 0xDEADBEEF and a superblock
describing the ten-block disk, block 1 the inode table. -/
def contentC1 : Nat → Block :=
  fun b =>
    if b = 0 then
      { emptyBlock with
        super := { magic_number := 0xDEADBEEF, blocks := 10, inode_blocks := 1, inodes := 128 } }
    else if b = 1 then { emptyBlock with inodes := tableOneValid }
    else emptyBlock

/-- Disk image for C2: the on-disk superblock has the correct magic but
stores inode_blocks = 2 and inodes = 128, while the table holds exactly
one valid inode. -/
def contentC2 : Nat → Block :=
  fun b =>
    if b = 0 then
      { emptyBlock with
        super := { magic_number := MAGIC_NUMBER, blocks := 10, inode_blocks := 2, inodes := 128 } }
    else if b = 1 then { emptyBlock with inodes := tableOneValid }
    else emptyBlock

/-! ## Claim C1 -/

/-- C1: the claim states that a mount of a disk whose block 0 holds a wrong
magic number fails and leaves the disk unmounted. In the source the magic
check only logs an error (the if body has no return), so on this disk with
magic 0xDEADBEEF the mount runs to completion, returns true and sets
disk->mounted. -/
theorem fs_mount_accepts_bad_magic :
    (contentC1 0).super.magic_number = 0xDEADBEEF ∧
      (contentC1 0).super.magic_number ≠ MAGIC_NUMBER ∧
      (fs_mount fs0 diskTen contentC1).1 = true ∧
      (fs_mount fs0 diskTen contentC1).2.2.mounted = true := by
  decide

/-! ## Claim C2 -/

/-- C2: the claim states that after a successful mount every field of
fs.meta_data equals the on-disk superblock field and nothing is computed.
On this disk the mount succeeds but stores inode_blocks = ceil(10/10) = 1
where the superblock says 2, and inodes = 1 (the number of valid inodes it
counted) where the superblock says 128. -/
theorem fs_mount_recomputes_meta :
    (fs_mount fs0 diskTen contentC2).1 = true ∧
      (contentC2 0).super.inode_blocks = 2 ∧
      (fs_mount fs0 diskTen contentC2).2.1.meta_data.inode_blocks = 1 ∧
      (contentC2 0).super.inodes = 128 ∧
      (fs_mount fs0 diskTen contentC2).2.1.meta_data.inodes = 1 := by
  decide

/-! ## Claim C7 -/

/-- A mounted-filesystem state over diskTen whose bitmap has every inode
slot available and whose valid-inode counter is 0. -/
def fsAllFree : FileSystem :=
  { free_blocks := List.replicate 10 true
    free_inodes := List.replicate 128 true
    meta_data := { magic_number := MAGIC_NUMBER, blocks := 10, inode_blocks := 1, inodes := 0 } }

/-- Disk image for C7: inode slot 1 is invalid on disk but its record
still holds stale direct pointers [11, 257, 12, 13, 14] and indirect
pointer 15. Slot 1 is the lowest slot a create can actually reach: slot 0
is unusable because the find result 0 collides with FS_FAILURE. -/
def contentC7 : Nat → Block :=
  fun b =>
    if b = 1 then
      { emptyBlock with
        inodes := fun i =>
          if i = 1 then
            { valid := 0, size := 7
              direct := fun j =>
                if j = 0 then 11 else if j = 1 then 257
                else if j = 2 then 12 else if j = 3 then 13 else 14
              indirect := 15 }
          else invalidInode }
    else emptyBlock

/-- A mounted-filesystem state over diskTen with slot 0 already taken,
slots 1..127 available, and the valid-inode counter at 1. -/
def fsW6 : FileSystem :=
  { free_blocks := List.replicate 10 true
    free_inodes := false :: List.replicate 127 true
    meta_data := { magic_number := MAGIC_NUMBER, blocks := 10, inode_blocks := 1, inodes := 1 } }

set_option maxRecDepth 8000 in
/-- C7: the claim states that the inode record written back by a successful
fs_create has valid 1, size 0, five zero direct pointers and zero indirect
pointer. The memset in fs_create covers only POINTERS_PER_INODE = 5 bytes,
and indirect is never assigned, so on this image the create lands on slot
1 (the lowest reachable slot) and the created inode keeps direct[1] = 256
(only the low byte of 257 is cleared), direct[2] = 12 and indirect = 15
in the block written to disk. -/
theorem fs_create_leaves_stale_pointers :
    (fs_create fsW6 diskTen contentC7 true).1 = some 1 ∧
      (((fs_create fsW6 diskTen contentC7 true).2.2 1).inodes 1).valid = 1 ∧
      (((fs_create fsW6 diskTen contentC7 true).2.2 1).inodes 1).size = 0 ∧
      (((fs_create fsW6 diskTen contentC7 true).2.2 1).inodes 1).direct 0 = 0 ∧
      (((fs_create fsW6 diskTen contentC7 true).2.2 1).inodes 1).direct 1 = 256 ∧
      (((fs_create fsW6 diskTen contentC7 true).2.2 1).inodes 1).direct 2 = 12 ∧
      (((fs_create fsW6 diskTen contentC7 true).2.2 1).inodes 1).indirect = 15 := by
  decide

/-! ## Claim C8 -/

/-- C8: when the disk write inside fs_create fails, the call returns the
failure result and the filesystem state, the free-inode bitmap included,
is exactly the state before the call; the backing file is unchanged too. -/
theorem fs_create_write_failure_no_update (fs : FileSystem) (d : Disk)
    (c : Nat → Block) :
    fs_create fs d c false = (none, fs, c) ∧
      (fs_create fs d c false).2.1.free_inodes = fs.free_inodes := by
  have h : fs_create fs d c false = (none, fs, c) := by
    unfold fs_create
    split
    · rfl
    · split
      · rfl
      · unfold fs_create_go
        split
        · rfl
        · simp [disk_write]
  exact ⟨h, by rw [h]⟩

/-! ## Claim C9 -/

/-- A full filesystem state: the valid-inode counter has reached
INODES_PER_BLOCK * inode_blocks, so fs_create refuses immediately. -/
def fsFull : FileSystem :=
  { free_blocks := List.replicate 10 true
    free_inodes := List.replicate 128 false
    meta_data := { magic_number := MAGIC_NUMBER, blocks := 10, inode_blocks := 1, inodes := 128 } }

/-- C3: after a successful fs_mount, free_blocks[b] is true iff b lies
past the superblock and the inode table (b >= 1 + inode_blocks), below the
block count, and no valid inode reaches b through its direct pointers, its
indirect pointer, or the nonzero entries of its indirect block; and
free_inodes[i] is true iff the inode at slot i has valid = 0. Stated for a
well-formed unmounted disk: open descriptor, zeroed counters, superblock
block count matching the disk, the inode table fitting below the block
count, valid flags in {0,1}, pointers within the block count, and at least
one valid inode (without one this fs_mount cannot succeed at all, because
it reads the inode count 0 as FS_FAILURE). -/
theorem fs_mount_bitmaps_correct (fs : FileSystem) (d : Disk) (content : Nat → Block)
    (hm : d.mounted = false) (hfd : d.fd ≠ -1) (hr : d.reads = 0) (hw : d.writes = 0)
    (hdb : (content 0).super.blocks = d.blocks)
    (hfit : 1 + ceil_div10 (content 0).super.blocks ≤ (content 0).super.blocks)
    (h01 : valid01 content (ceil_div10 (content 0).super.blocks) = true)
    (hptr : ptrsInRange content (ceil_div10 (content 0).super.blocks)
      (content 0).super.blocks = true)
    (hone : hasValidInode content (ceil_div10 (content 0).super.blocks) = true) :
    (fs_mount fs d content).1 = true ∧
      (∀ b < (fs_mount fs d content).2.1.meta_data.blocks,
        ((fs_mount fs d content).2.1.free_blocks.getD b false = true ↔
          (1 + (fs_mount fs d content).2.1.meta_data.inode_blocks ≤ b ∧
            b < (fs_mount fs d content).2.1.meta_data.blocks ∧
            ¬ SomeInodeReaches content
              (fs_mount fs d content).2.1.meta_data.inode_blocks b))) ∧
      (∀ i < (fs_mount fs d content).2.1.meta_data.inode_blocks * INODES_PER_BLOCK,
        ((fs_mount fs d content).2.1.free_inodes.getD i false = true ↔
          ((content (i / INODES_PER_BLOCK + 1)).inodes
            (i % INODES_PER_BLOCK)).valid = 0)) := by
  obtain ⟨hs, hd, hmeta, hblen, hfb, hfi⟩ :=
    fs_mount_success_chars fs d content hm hfd hr hw hdb hfit hptr hone
  refine ⟨hs, ?_, ?_⟩
  · intro b hb
    rw [hmeta] at hb ⊢
    simp only [mountMeta] at hb ⊢
    rw [hfb b]
    have hiff : blockReachable content (ceil_div10 (content 0).super.blocks) b = false ↔
        ¬ SomeInodeReaches content (ceil_div10 (content 0).super.blocks) b := by
      rw [← blockReachable_iff content _ b h01, Bool.not_eq_true]
    constructor
    · rintro ⟨h1, h2, h3⟩
      exact ⟨h1, h2, hiff.mp h3⟩
    · rintro ⟨h1, h2, h3⟩
      exact ⟨h1, h2, hiff.mpr h3⟩
  · intro i hi
    rw [hmeta] at hi
    simp only [mountMeta] at hi
    rw [hfi i hi]
    have hmem : i / INODES_PER_BLOCK + 1 ∈
        List.range' 1 (ceil_div10 (content 0).super.blocks) := by
      rw [List.mem_range']
      refine ⟨i / INODES_PER_BLOCK, ?_, by omega⟩
      unfold INODES_PER_BLOCK at hi ⊢
      omega
    have hslot : i % INODES_PER_BLOCK ∈ List.range INODES_PER_BLOCK :=
      List.mem_range.mpr (Nat.mod_lt _ (by unfold INODES_PER_BLOCK; omega))
    have hvi := valid01_cases content _ h01 (i / INODES_PER_BLOCK + 1) hmem
      (i % INODES_PER_BLOCK) hslot
    rcases hvi with hv0 | hv1
    · rw [if_neg (by omega)]
      simp [INODE_AVAILABLE, hv0]
    · rw [if_pos hv1]
      simp [INODE_UNAVAILABLE, hv1]

/-- A ten-block disk image for the mount witnesses: correct magic, one
valid inode at slot 0 holding data block 5, everything else clear. -/
def contentW : Nat → Block :=
  fun b =>
    if b = 0 then
      { emptyBlock with
        super := { magic_number := MAGIC_NUMBER, blocks := 10, inode_blocks := 1, inodes := 128 } }
    else if b = 1 then
      { emptyBlock with
        inodes := fun i =>
          if i = 0 then
            { valid := 1, size := 100, direct := fun j => if j = 0 then 5 else 0,
              indirect := 0 }
          else invalidInode }
    else emptyBlock

set_option maxRecDepth 8000 in
/-- Witness for C3 at the concrete ten-block image contentW. -/
theorem fs_mount_bitmaps_correct_witness :
    (diskTen.mounted = false ∧
      valid01 contentW (ceil_div10 (contentW 0).super.blocks) = true ∧
      ptrsInRange contentW (ceil_div10 (contentW 0).super.blocks)
        (contentW 0).super.blocks = true ∧
      hasValidInode contentW (ceil_div10 (contentW 0).super.blocks) = true) ∧
    ((fs_mount fs0 diskTen contentW).1 = true ∧
      (∀ b < (fs_mount fs0 diskTen contentW).2.1.meta_data.blocks,
        ((fs_mount fs0 diskTen contentW).2.1.free_blocks.getD b false = true ↔
          (1 + (fs_mount fs0 diskTen contentW).2.1.meta_data.inode_blocks ≤ b ∧
            b < (fs_mount fs0 diskTen contentW).2.1.meta_data.blocks ∧
            ¬ SomeInodeReaches contentW
              (fs_mount fs0 diskTen contentW).2.1.meta_data.inode_blocks b))) ∧
      (∀ i < (fs_mount fs0 diskTen contentW).2.1.meta_data.inode_blocks * INODES_PER_BLOCK,
        ((fs_mount fs0 diskTen contentW).2.1.free_inodes.getD i false = true ↔
          ((contentW (i / INODES_PER_BLOCK + 1)).inodes
            (i % INODES_PER_BLOCK)).valid = 0))) :=
  ⟨⟨by decide, by decide, by decide, by decide⟩,
    fs_mount_bitmaps_correct fs0 diskTen contentW (by decide) (by decide) (by decide)
      (by decide) (by decide) (by decide) (by decide) (by decide) (by decide)⟩

/-! ## Claim C6 -/

set_option maxRecDepth 8000 in
/-- C6: the claim states that fs_create returns the lowest free index
whenever at least one free inode exists. On a fresh mounted filesystem
every slot is free, so the lowest free index is 0, and there the program
fails instead: fs_find_first_available_inode returns the found index as
an ssize_t and fs_create compares it against FS_FAILURE, the C false = 0,
so the legitimate result slot 0 is read as failure and the call returns
FS_FAILURE with nothing allocated (spec scenario 2 requires this very
call to return 0). -/
theorem fs_create_misses_lowest_slot_zero :
    fsAllFree.free_inodes.getD 0 false = true ∧
      (∃ i, i < INODES_PER_BLOCK * fsAllFree.meta_data.inode_blocks ∧
        fsAllFree.free_inodes.getD i false = true) ∧
      fs_create fsAllFree diskTen contentC7 true = (none, fsAllFree, contentC7) :=
  ⟨by decide, ⟨0, by decide, by decide⟩, by rfl⟩

/-! ## Claim C10 -/

/-- C10: meta_data.inodes is maintained as the number of valid inodes, not
the capacity: a successful fs_mount sets it to the number of valid slots
counted from the table, every successful fs_create increments it by one,
and whenever it has reached INODES_PER_BLOCK * inode_blocks the next
fs_create returns the failure result at once, leaving the filesystem and
the backing file untouched. -/
theorem meta_inodes_is_valid_count (fs : FileSystem) (d : Disk) (content : Nat → Block)
    (hm : d.mounted = false) (hfd : d.fd ≠ -1) (hr : d.reads = 0) (hw : d.writes = 0)
    (hdb : (content 0).super.blocks = d.blocks)
    (hfit : 1 + ceil_div10 (content 0).super.blocks ≤ (content 0).super.blocks)
    (hptr : ptrsInRange content (ceil_div10 (content 0).super.blocks)
      (content 0).super.blocks = true)
    (hone : hasValidInode content (ceil_div10 (content 0).super.blocks) = true)
    (fs1 : FileSystem) (d1 : Disk) (c1 : Nat → Block) (w1 : Bool) (k : Nat)
    (hcr : (fs_create fs1 d1 c1 w1).1 = some k)
    (fs2 : FileSystem) (d2 : Disk) (c2 : Nat → Block) (w2 : Bool)
    (hfull : INODES_PER_BLOCK * fs2.meta_data.inode_blocks ≤ fs2.meta_data.inodes) :
    (fs_mount fs d content).2.1.meta_data.inodes =
        countValidSlots content (ceil_div10 (content 0).super.blocks) ∧
      (fs_create fs1 d1 c1 w1).2.1.meta_data.inodes = fs1.meta_data.inodes + 1 ∧
      fs_create fs2 d2 c2 w2 = (none, fs2, c2) := by
  refine ⟨?_, fs_create_success_inodes fs1 d1 c1 w1 k hcr, ?_⟩
  · obtain ⟨hs, hd, hmeta, hblen, hfb, hfi⟩ :=
      fs_mount_success_chars fs d content hm hfd hr hw hdb hfit hptr hone
    rw [hmeta]
    rfl
  · unfold fs_create
    rw [if_pos hfull]

set_option maxRecDepth 8000 in
/-- Witness for C10: the contentW mount counts one valid inode, a create
on the state fsW6 (slot 0 taken) succeeds at slot 1 incrementing the
counter, and the full state fsFull (counter 128 = capacity) is refused
untouched. -/
theorem meta_inodes_is_valid_count_witness :
    (hasValidInode contentW (ceil_div10 (contentW 0).super.blocks) = true ∧
      (fs_create fsW6 diskTen contentC7 true).1 = some 1 ∧
      INODES_PER_BLOCK * fsFull.meta_data.inode_blocks ≤ fsFull.meta_data.inodes) ∧
    ((fs_mount fs0 diskTen contentW).2.1.meta_data.inodes =
        countValidSlots contentW (ceil_div10 (contentW 0).super.blocks) ∧
      (fs_create fsW6 diskTen contentC7 true).2.1.meta_data.inodes =
        fsW6.meta_data.inodes + 1 ∧
      fs_create fsFull diskTen contentC7 true = (none, fsFull, contentC7)) :=
  ⟨⟨by decide, by decide, by decide⟩,
    meta_inodes_is_valid_count fs0 diskTen contentW (by decide) (by decide) (by decide)
      (by decide) (by decide) (by decide) (by decide) (by decide)
      fsW6 diskTen contentC7 true 1 (by decide)
      fsFull diskTen contentC7 true (by decide)⟩

end SimpleFS
